import Mathlib

/-!
Verification development for the metabolite-classification pipeline in
`src/app.py` (KEGG-HDMB repository).

The Python program resolves metabolite names against the HMDB and KEGG web
services, merges the two per-name records and classifies each metabolite as
primary / secondary / unknown.  All network traffic is modelled by explicit
"oracle" values: one oracle value per HTTP interaction, indexed by the
position of the metabolite in the input list (the code performs one
sequential round of calls per input item).  Exceptions raised by the Python
code are modelled with `Option` / `Except`; every function below is the
direct shallow embedding of the correspondingly named Python function.
-/

/-! ## Python `dict` model

`results[key] = value` on a Python dict preserves insertion order and
overwrites in place; lookup returns the value stored under the key.
-/

/-- Python dict assignment `d[k] = v`: replaces the value at an existing key
in place, otherwise appends the binding at the end (insertion order). -/
def dictInsert {α : Type} : List (String × α) → String → α → List (String × α)
  | [], k, v => [(k, v)]
  | e :: t, k, v => if e.1 = k then (k, v) :: t else e :: dictInsert t k v

/-- Python dict lookup `d.get(k)`. -/
def dictGet {α : Type} : List (String × α) → String → Option α
  | [], _ => none
  | e :: t, k => if e.1 = k then some e.2 else dictGet t k

/-- The shape shared by the three Python loops
`for i, metab in enumerate(metabolites): results[metab] = step(i, metab)`. -/
def insertLoop {α : Type} (step : Nat → String → α) :
    List String → Nat → List (String × α) → List (String × α)
  | [], _, acc => acc
  | m :: ms, i, acc => insertLoop step ms (i + 1) (dictInsert acc m (step i m))

/-! Specification-side helpers used to state the claims about the loops. -/

/-- Index (counting from `i`) of the last occurrence of `m` in the list. -/
def lastIdxFrom (m : String) : List String → Nat → Option Nat
  | [], _ => none
  | x :: xs, i =>
    match lastIdxFrom m xs (i + 1) with
    | some j => some j
    | none => if x = m then some i else none

/-- Index of the last occurrence of `m` in `ms`. -/
def lastIdx (ms : List String) (m : String) : Option Nat := lastIdxFrom m ms 0

/-- Names of `ms` not in `seen`, each kept once, in first-occurrence order. -/
def firstOccsAux (seen : List String) : List String → List String
  | [] => []
  | x :: xs => if x ∈ seen then firstOccsAux seen xs else x :: firstOccsAux (x :: seen) xs

/-- The unique names of `ms` in first-occurrence order. -/
def firstOccs (ms : List String) : List String := firstOccsAux [] ms

/-! ## Python substring test (`needle in haystack`) -/

/-- `pat` is a leading segment of `l`. -/
def prefixMatch : List Char → List Char → Bool
  | [], _ => true
  | _ :: _, [] => false
  | a :: as, b :: bs => a == b && prefixMatch as bs

/-- `pat` occurs contiguously somewhere in `l`. -/
def containsSub (pat : List Char) : List Char → Bool
  | [] => prefixMatch pat []
  | c :: t => prefixMatch pat (c :: t) || containsSub pat t

/-- Python's `needle in hay` on strings. -/
def substrOccurs (needle hay : String) : Bool := containsSub needle.data hay.data

/-! ## Reducible models of the Python string operations

Core `String.splitOn` / `toLower` / `replace` are implemented by
well-founded recursion and do not reduce definitionally, so the embedding
uses structurally recursive equivalents over the character list.
-/

/-- Python `s.split(sep)` for a one-character separator: every occurrence
splits, empty pieces are kept, and the empty string yields `[""]`. -/
def splitOnChar (sep : Char) : List Char → List (List Char)
  | [] => [[]]
  | c :: rest =>
    if c = sep then [] :: splitOnChar sep rest
    else
      match splitOnChar sep rest with
      | [] => [[c]]
      | h :: t => (c :: h) :: t

/-- Python `s.split(sep)` on strings (single-character separator). -/
def pySplitChar (s : String) (sep : Char) : List String :=
  (splitOnChar sep s.data).map String.mk

/-- ASCII lower-casing of one character (the taxonomy strings and keyword
lists the code compares are ASCII). -/
def charLower (c : Char) : Char :=
  if 'A' ≤ c ∧ c ≤ 'Z' then Char.ofNat (c.toNat + 32) else c

/-- Python `s.lower()` (ASCII). -/
def pyLower (s : String) : String := String.mk (s.data.map charLower)

/-- `some rem` when `l = pat ++ rem`. -/
def stripPref : List Char → List Char → Option (List Char)
  | [], l => some l
  | _ :: _, [] => none
  | a :: as, b :: bs => if a = b then stripPref as bs else none

/-- Replace every (leftmost, non-overlapping) occurrence of `pat` by `rep`;
`fuel` bounds the number of steps and is instantiated with the length of
the scanned list, which suffices because every step consumes a character. -/
def replaceFuel (pat rep : List Char) : Nat → List Char → List Char
  | _, [] => []
  | 0, l => l
  | fuel + 1, c :: rest =>
    if pat.isEmpty then c :: rest
    else
      match stripPref pat (c :: rest) with
      | some rem => rep ++ replaceFuel pat rep fuel rem
      | none => c :: replaceFuel pat rep fuel rest

/-- Python `s.replace(pat, rep)` (for the non-empty `pat` used by the code). -/
def pyReplace (s pat rep : String) : String :=
  String.mk (replaceFuel pat.data rep.data s.data.length s.data)

/-! ## KEGG name resolution: `get_kegg_id` -/

/-- Whitespace for Python's regex `\s` (the characters that can occur here). -/
def isWsChar (c : Char) : Bool :=
  c == ' ' || c == '\t' || c == '\n' || c == '\r' || c == '\x0b' || c == '\x0c'

/-- `re.split(r'\s+', line, maxsplit=1)` restricted to the two-piece case:
`some (tok, rest)` when the line has a whitespace run, `none` otherwise
(in which case the Python two-variable unpacking raises `ValueError`). -/
def breakAtWs : List Char → Option (List Char × List Char)
  | [] => none
  | c :: t =>
    if isWsChar c then some ([], t.dropWhile isWsChar)
    else
      match breakAtWs t with
      | none => none
      | some (tok, rest) => some (c :: tok, rest)

/-- Body of the loop in `get_kegg_id` for one non-empty line:
`kegg_id, name = re.split(r'\s+', line, maxsplit=1); return kegg_id.split(':')[1]`,
with `ValueError` / `IndexError` turned into `none` by the enclosing `except`. -/
def parseKeggLine (line : String) : Option String :=
  match breakAtWs line.data with
  | none => none
  | some (tok, _) => ((splitOnChar ':' tok).map String.mk)[1]?

/-- The `for line in response.text.split('\n')` loop of `get_kegg_id`:
empty lines are skipped; the first non-empty line either returns or raises
(aborting the whole scan). -/
def scanKeggLines : List String → Option String
  | [] => none
  | l :: ls => if l = "" then scanKeggLines ls else parseKeggLine l

/-- Outcome of the HTTP request issued by `get_kegg_id`. -/
inductive FindNet where
  | exn
  | resp (status : Nat) (text : String)

/-- `get_kegg_id` from `src/app.py`: guard `status_code == 200 and response.text`,
then scan the lines; every exception is swallowed into `none`. -/
def get_kegg_id : FindNet → Option String
  | FindNet.exn => none
  | FindNet.resp status text =>
    if status = 200 ∧ text ≠ "" then scanKeggLines (pySplitChar text '\n') else none

/-! Specification-side restatement of the `get_kegg_id` scan (claim C10). -/

/-- First non-empty line of the response text. -/
def firstNonEmptyLine (text : String) : Option String :=
  (pySplitChar text '\n').find? (fun l => l != "")

/-- The claim's description of one line: the piece of the first
whitespace-separated token that lies between its first and second colon
(or reaches the end), `none` when the line has no whitespace separator or
the token has no colon. -/
def keggIdOfLineSpec (line : String) : Option String :=
  if line.data.any isWsChar then
    ((splitOnChar ':' (line.data.takeWhile (fun c => !isWsChar c))).map String.mk)[1]?
  else none

/-- Claim C10's description of the whole scan: only the first non-empty line
is ever examined. -/
def keggIdSpec (text : String) : Option String :=
  (firstNonEmptyLine text).bind keggIdOfLineSpec

/-! ## HMDB name resolution: `search_hmdb_id` -/

/-- Parsed body of the HMDB search response, as accessed by the code:
`response.json()['metabolites'][0]['hmdb_id']`.  `badJson` models a parse
exception, `noListKey` a missing `'metabolites'` key; each list entry is the
entry's `'hmdb_id'` value (`none` when the key is missing, which raises). -/
inductive SearchBody where
  | badJson
  | noListKey
  | metabolites (ms : List (Option String))

/-- Outcome of the HTTP request issued by `search_hmdb_id`. -/
inductive SearchNet where
  | exn
  | resp (status : Nat) (body : SearchBody)

/-- `search_hmdb_id` from `src/app.py`: on status exactly 200 and a non-empty
`metabolites` list, the first entry's id; `None` in every other case (all
exceptions swallowed). -/
def search_hmdb_id : SearchNet → Option String
  | SearchNet.exn => none
  | SearchNet.resp status body =>
    if status = 200 then
      match body with
      | SearchBody.badJson => none
      | SearchBody.noListKey => none
      | SearchBody.metabolites ms =>
        match ms with
        | [] => none
        | m :: _ => m
    else none

/-! ## HMDB detail fetch (`query_hmdb` body) -/

/-- The `classification` sub-dictionary of the parsed XML document
(`none` field = key absent, so `.get(..., 'Unknown')` yields the default). -/
structure XClass where
  super_class : Option String
  cls : Option String
  sub_class : Option String

/-- One entry of the pathway list: a dict (with optional `name` key) or a
value of any other shape, which `isinstance(p, dict)` filters out. -/
inductive PathVal where
  | obj (name : Option String)
  | other

/-- The value found under `metabolite.pathways.pathway`: a single dict or a
list of entries. -/
inductive PathwaysVal where
  | single (name : Option String)
  | plist (ps : List PathVal)

/-- The parsed XML document as accessed by `query_hmdb`
(both dictionary hops `pathways` / `pathway` collapsed into one option). -/
structure XDoc where
  classification : Option XClass
  pathway : Option PathwaysVal

/-- Body of the HMDB detail response. -/
inductive DetailBody where
  | badXml (msg : String)
  | doc (d : XDoc)

/-- Outcome of the HMDB detail request (`requests.get` + `raise_for_status`
+ `xmltodict.parse`). -/
inductive DetailNet where
  | exn (msg : String)
  | resp (status : Nat) (body : DetailBody)

/-- The two HTTP interactions performed for one metabolite by `query_hmdb`. -/
structure HmdbNet where
  search : SearchNet
  detail : DetailNet

/-- The partial record `query_hmdb` stores for one metabolite
(`none` = key absent from the Python dict). -/
structure HRec where
  hmdb_id : Option String := none
  super_class : Option String := none
  cls : Option String := none
  sub_class : Option String := none
  hmdb_pathways : Option (List String) := none
  hmdb_status : Option String := none

/-- The empty Python dict `{}` (used by `hmdb_data.get(metab, {})`). -/
def emptyH : HRec := {}

/-- `{'hmdb_status': 'ID not found'}` -/
def hmdbIdNotFound : HRec := { hmdb_status := some "ID not found" }

/-- `{'hmdb_status': f'Error: {str(e)}'}` -/
def hmdbError (msg : String) : HRec := { hmdb_status := some ("Error: " ++ msg) }

/-- `pathways = [pathways] if isinstance(pathways, dict) else pathways`,
with `[]` as the default for a missing key. -/
def normalizePathways : Option PathwaysVal → List PathVal
  | none => []
  | some (PathwaysVal.single n) => [PathVal.obj n]
  | some (PathwaysVal.plist ps) => ps

/-- `isinstance(p, dict)` -/
def isObjB : PathVal → Bool
  | PathVal.obj _ => true
  | PathVal.other => false

/-- `[p.get('name', '') for p in pathways if isinstance(p, dict)]` -/
def extractNames (ps : List PathVal) : List String :=
  ps.filterMap (fun p =>
    match p with
    | PathVal.obj n => some (n.getD "")
    | PathVal.other => none)

/-- The successful branch of `query_hmdb` for one metabolite. -/
def hmdbFound (hid : String) (d : XDoc) : HRec :=
  { hmdb_id := some hid
    super_class := some ((d.classification.bind XClass.super_class).getD "Unknown")
    cls := some ((d.classification.bind XClass.cls).getD "Unknown")
    sub_class := some ((d.classification.bind XClass.sub_class).getD "Unknown")
    hmdb_pathways := some (extractNames (normalizePathways d.pathway))
    hmdb_status := some "Found" }

/-- Modelled text of `str(e)` for the `requests.HTTPError` raised by
`response.raise_for_status()` on a 4xx/5xx status. -/
def httpErrMsg (status : Nat) : String := "HTTPError status " ++ toString status

/-- One iteration of the `query_hmdb` loop (the `try` body plus handler). -/
def hmdbStep (net : HmdbNet) : HRec :=
  match search_hmdb_id net.search with
  | none => hmdbIdNotFound
  | some hid =>
    if hid = "" then hmdbIdNotFound
    else
      match net.detail with
      | DetailNet.exn msg => hmdbError msg
      | DetailNet.resp status body =>
        if 400 ≤ status ∧ status < 600 then hmdbError (httpErrMsg status)
        else
          match body with
          | DetailBody.badXml msg => hmdbError msg
          | DetailBody.doc d => hmdbFound hid d

/-- `query_hmdb` from `src/app.py` (the progress bar and `time.sleep` have no
effect on the returned dict); `net i` is the network behaviour seen while
processing the `i`-th list entry. -/
def query_hmdb (metabolites : List String) (net : Nat → HmdbNet) :
    List (String × HRec) :=
  insertLoop (fun i _ => hmdbStep (net i)) metabolites 0 []

/-! ## KEGG fetch (`query_kegg` body) -/

/-- Outcome of a bare `requests.get(url).text`: the code never checks the
status, so a response of any status delivers its body as text; only a
transport exception raises. -/
inductive FetchNet where
  | exn (msg : String)
  | resp (status : Nat) (text : String)

/-- The three HTTP interactions performed for one metabolite by `query_kegg`. -/
structure KeggNet where
  find : FindNet
  info : FetchNet
  link : FetchNet

/-- `requests.get(url, timeout=15).text` -/
def fetchText : FetchNet → Except String String
  | FetchNet.exn msg => Except.error msg
  | FetchNet.resp _ text => Except.ok text

/-- The partial record `query_kegg` stores for one metabolite. -/
structure KRec where
  kegg_id : Option String := none
  type : Option String := none
  kegg_pathways : Option (List String) := none
  description : Option String := none
  kegg_status : Option String := none

/-- The empty Python dict `{}` (used by `kegg_data.get(metab, {})`). -/
def emptyK : KRec := {}

/-- `{'kegg_status': 'ID not found'}` -/
def keggIdNotFound : KRec := { kegg_status := some "ID not found" }

/-- `{'kegg_status': f'Error: {str(e)}'}` -/
def keggError (msg : String) : KRec := { kegg_status := some ("Error: " ++ msg) }

/-- The successful branch of `query_kegg` for one metabolite. -/
def keggFound (kid mtype : String) (paths : List String) (descr : String) : KRec :=
  { kegg_id := some kid
    type := some mtype
    kegg_pathways := some paths
    description := some descr
    kegg_status := some "Found" }

/-- The non-empty lines of a line-oriented payload. -/
def nonEmptyLines (pd : String) : List String :=
  (pySplitChar pd '\n').filter (fun l => l != "")

/-- Specification-side: the code the comprehension extracts from one line
(`none` when the line has no tab, in which case the code raises). -/
def pathCodeOfLine (line : String) : Option String :=
  ((pySplitChar line '\t')[1]?).map (fun s => pyReplace s "path:" "")

/-- `[line.split("\t")[1].replace("path:", "") for line in ...]` evaluated
left to right; the first `IndexError` aborts the whole comprehension. -/
def extractPathCodes : List String → Except String (List String)
  | [] => Except.ok []
  | line :: rest =>
    match (pySplitChar line '\t')[1]? with
    | none => Except.error "list index out of range"
    | some s =>
      match extractPathCodes rest with
      | Except.error e => Except.error e
      | Except.ok codes => Except.ok ((pyReplace s "path:" "") :: codes)

/-- The pathway extraction of `query_kegg` applied to the pathway-link
payload text. -/
def keggPathways (path_data : String) : Except String (List String) :=
  extractPathCodes (nonEmptyLines path_data)

/-- `info_data.split("\n")[1] if len(info_data.split("\n")) > 1 else ""` -/
def keggDescription (info_data : String) : String :=
  match pySplitChar info_data '\n' with
  | _ :: d :: _ => d
  | _ => ""

/-- One iteration of the `query_kegg` loop (the `try` body plus handler). -/
def keggStep (net : KeggNet) : KRec :=
  match get_kegg_id net.find with
  | none => keggIdNotFound
  | some kid =>
    if kid = "" then keggIdNotFound
    else
      match fetchText net.info with
      | Except.error msg => keggError msg
      | Except.ok info_data =>
        match fetchText net.link with
        | Except.error msg => keggError msg
        | Except.ok path_data =>
          match keggPathways path_data with
          | Except.error msg => keggError msg
          | Except.ok paths =>
            keggFound kid
              (if substrOccurs "Secondary metabolites" info_data then "secondary" else "primary")
              paths (keggDescription info_data)

/-- `query_kegg` from `src/app.py`; `net i` is the network behaviour seen
while processing the `i`-th list entry. -/
def query_kegg (metabolites : List String) (net : Nat → KeggNet) :
    List (String × KRec) :=
  insertLoop (fun i _ => keggStep (net i)) metabolites 0 []

/-! ## Merge and classification (`classify_metabolites`) -/

/-- The keyword list of the `primary` branch of the heuristic. -/
def primaryKeywords : List String := ["lipid", "organic acid", "nucleoside"]

/-- The keyword list of the `secondary` branch of the heuristic. -/
def secondaryKeywords : List String := ["flavonoid", "alkaloid", "terpene"]

/-- The `final_type` decision of `classify_metabolites`: the explicit KEGG
`type` when the key is present, otherwise the case-insensitive keyword
heuristic over `super_class` (missing key defaulting to `''`). -/
def finalType (ktype : Option String) (super_class : Option String) : String :=
  match ktype with
  | some t => t
  | none =>
    let sc := pyLower (super_class.getD "")
    if primaryKeywords.any (fun x => substrOccurs x sc) then "primary"
    else if secondaryKeywords.any (fun x => substrOccurs x sc) then "secondary"
    else "unknown"

/-- The row of the result table for one metabolite: the HMDB fields, the
KEGG fields (disjoint key sets, so the two `update` calls just juxtapose
them) and the computed `final_type`. -/
structure MergedRecord where
  hmdb_id : Option String
  super_class : Option String
  cls : Option String
  sub_class : Option String
  hmdb_pathways : Option (List String)
  hmdb_status : Option String
  kegg_id : Option String
  type : Option String
  kegg_pathways : Option (List String)
  description : Option String
  kegg_status : Option String
  final_type : String

/-- Building one row of `classified` from the two per-source dicts. -/
def classifyRecord (h : HRec) (k : KRec) : MergedRecord :=
  { hmdb_id := h.hmdb_id
    super_class := h.super_class
    cls := h.cls
    sub_class := h.sub_class
    hmdb_pathways := h.hmdb_pathways
    hmdb_status := h.hmdb_status
    kegg_id := k.kegg_id
    type := k.type
    kegg_pathways := k.kegg_pathways
    description := k.description
    kegg_status := k.kegg_status
    final_type := finalType k.type h.super_class }

/-- `classify_metabolites` from `src/app.py`.  The returned association list
models the `DataFrame.from_dict(classified, orient='index')` result: one row
per key of `classified`, in insertion order. -/
def classify_metabolites (metabolites : List String)
    (hnet : Nat → HmdbNet) (knet : Nat → KeggNet) :
    List (String × MergedRecord) :=
  insertLoop
    (fun _ metab =>
      classifyRecord ((dictGet (query_hmdb metabolites hnet) metab).getD emptyH)
        ((dictGet (query_kegg metabolites knet) metab).getD emptyK))
    metabolites 0 []

/-! ## Concrete oracle values used by the witnesses -/

/-- A KEGG find response resolving to id `C00031`. -/
def findOkNet : FindNet := FindNet.resp 200 "cpd:C00031\tD-Glucose; Grape sugar"

/-- KEGG oracle for one metabolite whose detail and pathway-link fetches both
answer with HTTP 404 bodies. -/
def c5net : KeggNet :=
  { find := findOkNet
    info := FetchNet.resp 404 "404 Not Found"
    link := FetchNet.resp 404 "" }

/-- KEGG oracle for one metabolite whose detail fetch raises a timeout. -/
def c5exnNet : KeggNet :=
  { find := findOkNet
    info := FetchNet.exn "timeout"
    link := FetchNet.exn "timeout" }

/-- KEGG oracle whose find request raises (network timeout). -/
def keggTimeoutNet : KeggNet :=
  { find := FindNet.exn
    info := FetchNet.exn "timeout"
    link := FetchNet.exn "timeout" }

/-- HMDB oracle whose requests all fail. -/
def hmdbFailNet : HmdbNet :=
  { search := SearchNet.exn, detail := DetailNet.exn "timeout" }

/-- Constant all-failing HMDB oracle sequence. -/
def cHN : Nat → HmdbNet := fun _ => hmdbFailNet

/-- Constant all-failing KEGG oracle sequence. -/
def cKN : Nat → KeggNet := fun _ => keggTimeoutNet

/-- An HMDB record as produced by a fully successful HMDB query. -/
def hFoundRec : HRec :=
  { hmdb_id := some "HMDB0000122"
    super_class := some "Organic oxygen compounds"
    cls := some "Organooxygen compounds"
    sub_class := some "Carbohydrates and carbohydrate conjugates"
    hmdb_pathways := some ["Glycolysis"]
    hmdb_status := some "Found" }

/-- An HMDB record whose `super_class` contains the keyword `lipid`. -/
def hLipidRec : HRec :=
  { super_class := some "Lipids and lipid-like molecules"
    hmdb_status := some "Found" }

/-- A KEGG record carrying the explicit type `secondary`. -/
def kSecondaryRec : KRec := keggFound "C00031" "secondary" ["map00010"] ""

/-! ## Lemmas about the dictionary model -/

theorem dictGet_insert {α : Type} (d : List (String × α)) (k k' : String) (v : α) :
    dictGet (dictInsert d k v) k' = if k' = k then some v else dictGet d k' := by
  induction d with
  | nil =>
    by_cases h : k' = k
    · simp [dictInsert, dictGet, h]
    · simp only [dictInsert, dictGet, if_neg h]
      rw [if_neg (fun hh => h hh.symm)]
  | cons e t ih =>
    by_cases he : e.1 = k
    · by_cases h : k' = k
      · simp [dictInsert, dictGet, he, h]
      · simp only [dictInsert, dictGet, if_pos he, if_neg h]
        rw [if_neg (fun hh => h hh.symm), if_neg (fun hh => h (by rw [← hh, he]))]
    · by_cases h : e.1 = k'
      · have hne : ¬ k' = k := fun hk => he (by rw [h, hk])
        simp [dictInsert, dictGet, he, h, hne]
      · simp [dictInsert, dictGet, he, h, ih]

theorem dictInsert_keys {α : Type} (d : List (String × α)) (k : String) (v : α) :
    (dictInsert d k v).map Prod.fst =
      if k ∈ d.map Prod.fst then d.map Prod.fst else d.map Prod.fst ++ [k] := by
  induction d with
  | nil => simp [dictInsert]
  | cons e t ih =>
    by_cases he : e.1 = k
    · simp [dictInsert, he]
    · have : ¬ k = e.1 := fun h => he h.symm
      by_cases hk : k ∈ t.map Prod.fst <;> simp [dictInsert, he, ih, hk, this]

theorem dictGet_of_mem_nodup {α : Type} (d : List (String × α)) (e : String × α)
    (hnd : (d.map Prod.fst).Nodup) (he : e ∈ d) : dictGet d e.1 = some e.2 := by
  induction d with
  | nil => simp at he
  | cons x t ih =>
    simp only [List.map_cons, List.nodup_cons] at hnd
    rcases List.mem_cons.mp he with h | h
    · subst h; simp [dictGet]
    · have hne : x.1 ≠ e.1 := by
        intro hx
        exact hnd.1 (hx ▸ List.mem_map_of_mem Prod.fst h)
      simp [dictGet, hne, ih hnd.2 h]

/-! ## Lemmas about the query loops -/

theorem insertLoop_get {α : Type} (step : Nat → String → α) (ms : List String) :
    ∀ (i : Nat) (acc : List (String × α)) (k : String),
      dictGet (insertLoop step ms i acc) k =
        match lastIdxFrom k ms i with
        | some j => some (step j k)
        | none => dictGet acc k := by
  induction ms with
  | nil => intro i acc k; simp [insertLoop, lastIdxFrom]
  | cons x ms ih =>
    intro i acc k
    simp only [insertLoop, lastIdxFrom]
    rw [ih (i + 1)]
    cases h : lastIdxFrom k ms (i + 1) with
    | some j => simp
    | none =>
      simp only
      rw [dictGet_insert]
      by_cases hk : x = k
      · simp [hk]
      · have : ¬ k = x := fun h => hk h.symm
        simp [hk, this]

theorem firstOccsAux_congr (ms : List String) :
    ∀ (s1 s2 : List String), (∀ a, a ∈ s1 ↔ a ∈ s2) →
      firstOccsAux s1 ms = firstOccsAux s2 ms := by
  induction ms with
  | nil => intro s1 s2 _; rfl
  | cons x ms ih =>
    intro s1 s2 hs
    by_cases hx : x ∈ s1
    · have hx2 : x ∈ s2 := (hs x).mp hx
      simp [firstOccsAux, hx, hx2, ih s1 s2 hs]
    · have hx2 : x ∉ s2 := fun h => hx ((hs x).mpr h)
      have : ∀ a, a ∈ x :: s1 ↔ a ∈ x :: s2 := by
        intro a; simp [hs a]
      simp [firstOccsAux, hx, hx2, ih _ _ this]

theorem insertLoop_keys {α : Type} (step : Nat → String → α) (ms : List String) :
    ∀ (i : Nat) (acc : List (String × α)),
      (insertLoop step ms i acc).map Prod.fst =
        acc.map Prod.fst ++ firstOccsAux (acc.map Prod.fst) ms := by
  induction ms with
  | nil => intro i acc; simp [insertLoop, firstOccsAux]
  | cons x ms ih =>
    intro i acc
    simp only [insertLoop]
    rw [ih (i + 1)]
    rw [dictInsert_keys]
    by_cases hx : x ∈ acc.map Prod.fst
    · simp [firstOccsAux, hx]
    · have hcongr : firstOccsAux (acc.map Prod.fst ++ [x]) ms
        = firstOccsAux (x :: acc.map Prod.fst) ms := by
        apply firstOccsAux_congr
        intro a; simp [or_comm]
      simp [firstOccsAux, hx, hcongr]

theorem mem_firstOccsAux (ms : List String) :
    ∀ (seen : List String) (a : String),
      a ∈ firstOccsAux seen ms ↔ a ∈ ms ∧ a ∉ seen := by
  induction ms with
  | nil => intro seen a; simp [firstOccsAux]
  | cons x ms ih =>
    intro seen a
    by_cases hx : x ∈ seen
    · rw [firstOccsAux, if_pos hx, ih]
      constructor
      · rintro ⟨h1, h2⟩; exact ⟨List.mem_cons_of_mem x h1, h2⟩
      · rintro ⟨h1, h2⟩
        rcases List.mem_cons.mp h1 with h | h
        · exact absurd (h ▸ hx) h2
        · exact ⟨h, h2⟩
    · rw [firstOccsAux, if_neg hx]
      constructor
      · intro h
        rcases List.mem_cons.mp h with h | h
        · exact ⟨h ▸ List.mem_cons_self a ms, h ▸ hx⟩
        · rcases (ih _ _).mp h with ⟨h1, h2⟩
          refine ⟨List.mem_cons_of_mem x h1, fun hs => h2 (List.mem_cons_of_mem x hs)⟩
      · rintro ⟨h1, h2⟩
        rcases List.mem_cons.mp h1 with h | h
        · exact h ▸ List.mem_cons_self x _
        · by_cases hax : a = x
          · exact hax ▸ List.mem_cons_self x _
          · refine List.mem_cons_of_mem x ((ih _ _).mpr ⟨h, ?_⟩)
            intro hs
            rcases List.mem_cons.mp hs with h' | h'
            · exact hax h'
            · exact h2 h'

theorem nodup_firstOccsAux (ms : List String) :
    ∀ (seen : List String), (firstOccsAux seen ms).Nodup := by
  induction ms with
  | nil => intro seen; simp [firstOccsAux]
  | cons x ms ih =>
    intro seen
    by_cases hx : x ∈ seen
    · rw [firstOccsAux, if_pos hx]; exact ih seen
    · rw [firstOccsAux, if_neg hx]
      refine List.nodup_cons.mpr ⟨?_, ih _⟩
      intro hmem
      rcases (mem_firstOccsAux ms _ x).mp hmem with ⟨_, h2⟩
      exact h2 (List.mem_cons_self x seen)

theorem lastIdxFrom_eq_none (m : String) (ms : List String) :
    ∀ i, lastIdxFrom m ms i = none ↔ m ∉ ms := by
  induction ms with
  | nil => intro i; simp [lastIdxFrom]
  | cons x ms ih =>
    intro i
    rw [lastIdxFrom]
    cases h : lastIdxFrom m ms (i + 1) with
    | some j =>
      simp only
      constructor
      · intro hc; exact absurd hc (by simp)
      · intro hm
        exact absurd ((ih (i + 1)).mpr (fun hmem => hm (List.mem_cons_of_mem x hmem))) (by simp [h])
    | none =>
      have hm : m ∉ ms := (ih (i + 1)).mp h
      by_cases hx : x = m
      · simp [hx]
      · simp only [if_neg hx]
        simp [List.mem_cons, hm, Ne.symm hx, fun (h : m = x) => hx h.symm]

/-! ## Lemmas about the substring test -/

theorem prefixMatch_iff (pat : List Char) :
    ∀ l, prefixMatch pat l = true ↔ ∃ rest, l = pat ++ rest := by
  induction pat with
  | nil =>
    intro l
    simp [prefixMatch]
  | cons a as ih =>
    intro l
    cases l with
    | nil =>
      simp [prefixMatch]
    | cons b bs =>
      rw [prefixMatch]
      simp only [Bool.and_eq_true, beq_iff_eq, ih bs, List.cons_append, List.cons.injEq]
      constructor
      · rintro ⟨hab, rest, hr⟩
        exact ⟨rest, hab.symm, hr⟩
      · rintro ⟨rest, hb, hr⟩
        exact ⟨hb.symm, rest, hr⟩

theorem containsSub_iff (pat : List Char) :
    ∀ l, containsSub pat l = true ↔ ∃ pre post, l = pre ++ (pat ++ post) := by
  intro l
  induction l with
  | nil =>
    rw [containsSub, prefixMatch_iff]
    constructor
    · rintro ⟨rest, hr⟩
      exact ⟨[], rest, hr⟩
    · rintro ⟨pre, post, hp⟩
      rcases List.append_eq_nil.mp hp.symm with ⟨h1, h2⟩
      exact ⟨post, by simp [h1, h2.symm]⟩
  | cons c t ih =>
    rw [containsSub, Bool.or_eq_true, prefixMatch_iff, ih]
    constructor
    · rintro (⟨rest, hr⟩ | ⟨pre, post, hp⟩)
      · exact ⟨[], rest, by simp [hr]⟩
      · exact ⟨c :: pre, post, by simp [hp]⟩
    · rintro ⟨pre, post, hp⟩
      cases pre with
      | nil => exact Or.inl ⟨post, by simpa using hp⟩
      | cons p pre' =>
        simp only [List.cons_append, List.cons.injEq] at hp
        exact Or.inr ⟨pre', post, hp.2⟩

theorem substrOccurs_iff (needle hay : String) :
    substrOccurs needle hay = true ↔ ∃ pre post, hay.data = pre ++ (needle.data ++ post) := by
  rw [substrOccurs, containsSub_iff]

/-! ## Lemmas about the `get_kegg_id` line scan -/

theorem breakAtWs_none_iff (cs : List Char) :
    breakAtWs cs = none ↔ cs.any isWsChar = false := by
  induction cs with
  | nil => simp [breakAtWs]
  | cons c t ih =>
    by_cases hc : isWsChar c = true
    · simp [breakAtWs, hc]
    · rw [breakAtWs, if_neg hc]
      cases h : breakAtWs t with
      | none =>
        simp only [List.any_cons, Bool.or_eq_false_iff]
        have := (ih.mp h)
        simp [Bool.not_eq_true] at hc
        simp [hc, this]
      | some p =>
        simp only [List.any_cons, Bool.or_eq_false_iff]
        constructor
        · intro hcontr; cases hcontr
        · rintro ⟨_, h2⟩
          exact absurd (ih.mpr h2) (by simp [h])

theorem breakAtWs_some_tok (cs : List Char) :
    ∀ tok rest, breakAtWs cs = some (tok, rest) →
      tok = cs.takeWhile (fun c => !isWsChar c) ∧ cs.any isWsChar = true := by
  induction cs with
  | nil => intro tok rest h; cases h
  | cons c t ih =>
    intro tok rest h
    by_cases hc : isWsChar c = true
    · rw [breakAtWs, if_pos hc] at h
      injection h with h
      injection h with h1 h2
      refine ⟨?_, by simp [hc]⟩
      rw [List.takeWhile_cons, if_neg (by simp [hc])]
      exact h1.symm
    · rw [breakAtWs, if_neg hc] at h
      cases hbt : breakAtWs t with
      | none => rw [hbt] at h; cases h
      | some p =>
        rw [hbt] at h
        injection h with h
        injection h with h1 h2
        rcases ih p.1 p.2 (by rw [hbt]) with ⟨ht, hany⟩
        refine ⟨?_, by simp [hany]⟩
        rw [List.takeWhile_cons, if_pos (by simp [hc])]
        rw [← h1, ht]

theorem parseKeggLine_eq_spec (line : String) :
    parseKeggLine line = keggIdOfLineSpec line := by
  rw [parseKeggLine, keggIdOfLineSpec]
  cases h : breakAtWs line.data with
  | none =>
    rw [if_neg]
    rw [breakAtWs_none_iff] at h
    simp [h]
  | some p =>
    rcases breakAtWs_some_tok line.data p.1 p.2 (by rw [h]) with ⟨ht, hany⟩
    rw [if_pos hany, ← ht]

theorem scanKeggLines_eq_spec (ls : List String) :
    scanKeggLines ls = ((ls.find? (fun l => l != "")).bind keggIdOfLineSpec) := by
  induction ls with
  | nil => simp [scanKeggLines]
  | cons l ls ih =>
    by_cases hl : l = ""
    · rw [scanKeggLines, if_pos hl, ih, List.find?]
      simp [hl]
    · rw [scanKeggLines, if_neg hl, List.find?]
      have : (l != "") = true := by simp [hl]
      rw [this]
      simp [parseKeggLine_eq_spec]

/-! ## Shape lemmas about the per-metabolite steps -/

theorem hmdbStep_status (net : HmdbNet) : (hmdbStep net).hmdb_status.isSome = true := by
  rw [hmdbStep]
  cases h : search_hmdb_id net.search with
  | none => rfl
  | some hid =>
    dsimp only
    by_cases hh : hid = ""
    · simp [hh, hmdbIdNotFound]
    · rw [if_neg hh]
      cases net.detail with
      | exn msg => rfl
      | resp status body =>
        dsimp only
        by_cases hs : 400 ≤ status ∧ status < 600
        · simp [hs, hmdbError]
        · rw [if_neg hs]
          cases body with
          | badXml msg => rfl
          | doc d => rfl

theorem keggStep_status (net : KeggNet) : (keggStep net).kegg_status.isSome = true := by
  rw [keggStep]
  cases h : get_kegg_id net.find with
  | none => rfl
  | some kid =>
    dsimp only
    by_cases hk : kid = ""
    · simp [hk, keggIdNotFound]
    · rw [if_neg hk]
      cases net.info with
      | exn msg => rfl
      | resp s info_data =>
        cases net.link with
        | exn msg => rfl
        | resp s2 path_data =>
          simp only [fetchText]
          cases keggPathways path_data with
          | error msg => rfl
          | ok paths => rfl

theorem keggStep_type (net : KeggNet) :
    (keggStep net).type = none ∨ (keggStep net).type = some "primary" ∨
      (keggStep net).type = some "secondary" := by
  rw [keggStep]
  cases h : get_kegg_id net.find with
  | none => exact Or.inl rfl
  | some kid =>
    dsimp only
    by_cases hk : kid = ""
    · simp only [hk, if_pos rfl]
      exact Or.inl rfl
    · rw [if_neg hk]
      cases net.info with
      | exn msg => exact Or.inl rfl
      | resp s info_data =>
        cases net.link with
        | exn msg => exact Or.inl rfl
        | resp s2 path_data =>
          simp only [fetchText]
          cases keggPathways path_data with
          | error msg => exact Or.inl rfl
          | ok paths =>
            by_cases hsec : substrOccurs "Secondary metabolites" info_data = true
            · simp [keggFound, hsec]
            · simp [keggFound, hsec]

theorem finalType_mem (t : Option String) (sc : Option String)
    (ht : t = none ∨ t = some "primary" ∨ t = some "secondary") :
    finalType t sc = "primary" ∨ finalType t sc = "secondary" ∨
      finalType t sc = "unknown" := by
  rcases ht with h | h | h
  · subst h
    rw [finalType]
    by_cases h1 : primaryKeywords.any (fun x => substrOccurs x (pyLower (sc.getD ""))) = true
    · simp [h1]
    · by_cases h2 : secondaryKeywords.any (fun x => substrOccurs x (pyLower (sc.getD ""))) = true
      · simp [h1, h2]
      · simp [h1, h2]
  · subst h; exact Or.inl rfl
  · subst h; exact Or.inr (Or.inl rfl)

/-! ## Lemma about the pathway-code comprehension -/

theorem extractPathCodes_all_some (ls : List String)
    (h : ∀ l ∈ ls, (pathCodeOfLine l).isSome = true) :
    extractPathCodes ls = Except.ok (ls.filterMap pathCodeOfLine) := by
  induction ls with
  | nil => rfl
  | cons l ls ih =>
    have hl := h l (List.mem_cons_self l ls)
    rw [pathCodeOfLine] at hl
    cases hsplit : (pySplitChar l '\t')[1]? with
    | none => rw [hsplit] at hl; simp at hl
    | some s =>
      rw [extractPathCodes, hsplit,
        ih (fun x hx => h x (List.mem_cons_of_mem l hx))]
      rw [List.filterMap_cons]
      simp [pathCodeOfLine, hsplit]

/-! ## Remaining helper lemmas -/

theorem filter_key_length_one {α : Type} (d : List (String × α)) (m : String)
    (hnd : (d.map Prod.fst).Nodup) (hm : m ∈ d.map Prod.fst) :
    (d.filter (fun e => e.1 == m)).length = 1 := by
  induction d with
  | nil => simp at hm
  | cons x t ih =>
    simp only [List.map_cons, List.nodup_cons] at hnd
    by_cases hx : x.1 = m
    · rw [List.filter_cons, if_pos (by simp [hx])]
      have ht : t.filter (fun e => e.1 == m) = [] := by
        rw [List.filter_eq_nil_iff]
        intro e he hc
        simp only [beq_iff_eq] at hc
        exact hnd.1 (hx ▸ hc ▸ List.mem_map_of_mem Prod.fst he)
      simp [ht]
    · rw [List.filter_cons, if_neg (by simp [hx])]
      simp only [List.map_cons] at hm
      rcases List.mem_cons.mp hm with h | h
      · exact absurd h.symm hx
      · exact ih hnd.2 h

theorem mem_of_lastIdxFrom_ne (m : String) (ms : List String) (hm : m ∈ ms) :
    ∃ i, lastIdxFrom m ms 0 = some i := by
  cases h : lastIdxFrom m ms 0 with
  | none => exact absurd hm ((lastIdxFrom_eq_none m ms 0).mp h)
  | some i => exact ⟨i, rfl⟩

theorem classify_keys (ms : List String) (hn : Nat → HmdbNet) (kn : Nat → KeggNet) :
    (classify_metabolites ms hn kn).map Prod.fst = firstOccs ms := by
  rw [classify_metabolites, insertLoop_keys]
  rfl

theorem classify_get (ms : List String) (hn : Nat → HmdbNet) (kn : Nat → KeggNet)
    (m : String) (i : Nat) (h : lastIdxFrom m ms 0 = some i) :
    dictGet (classify_metabolites ms hn kn) m =
      some (classifyRecord (hmdbStep (hn i)) (keggStep (kn i))) := by
  rw [classify_metabolites, insertLoop_get, h]
  have hh : dictGet (query_hmdb ms hn) m = some (hmdbStep (hn i)) := by
    rw [query_hmdb, insertLoop_get, h]
  have hk : dictGet (query_kegg ms kn) m = some (keggStep (kn i)) := by
    rw [query_kegg, insertLoop_get, h]
  rw [hh, hk]
  rfl

/-! ## Claim theorems -/

/-- C1: when the merged record carries an explicit KEGG `type` value the
classifier copies it into `final_type` verbatim, regardless of the
`super_class` keyword heuristic. -/
theorem kegg_type_precedence (h : HRec) (k : KRec) (t : String)
    (ht : k.type = some t) : (classifyRecord h k).final_type = t := by
  simp [classifyRecord, finalType, ht]

theorem kegg_type_precedence_witness :
    kSecondaryRec.type = some "secondary" ∧
      substrOccurs "lipid" (pyLower (hLipidRec.super_class.getD "")) = true ∧
      (classifyRecord hLipidRec kSecondaryRec).final_type = "secondary" :=
  ⟨rfl, by decide, kegg_type_precedence hLipidRec kSecondaryRec "secondary" rfl⟩

/-- C10: `get_kegg_id` is total (it returns an `Option`, never raising): on a
200 response it yields exactly the piece between the first and second colon
of the first whitespace-separated token of the first non-empty line, and
`none` when that first non-empty line is malformed — later lines are never
examined, as `keggIdSpec` only looks at the first non-empty line. -/
theorem get_kegg_id_scan_spec (text : String) :
    get_kegg_id (FindNet.resp 200 text) = keggIdSpec text := by
  rw [get_kegg_id]
  by_cases ht : text = ""
  · subst ht
    rw [if_neg (by simp)]
    rfl
  · rw [if_pos ⟨rfl, ht⟩, scanKeggLines_eq_spec]
    rfl

/-- C6: with no explicit KEGG type, `final_type` is decided by
case-insensitive substring matching on `super_class`: `primary` when it
contains one of the primary keywords, else `secondary` when it contains one
of the secondary keywords, else `unknown`; substring containment is stated
from first principles as the existence of a decomposition.  The last two
conjuncts check the claim's concrete instances. -/
theorem super_class_heuristic (sc : String) :
    ((finalType none (some sc) = "primary" ↔
      ∃ kw ∈ primaryKeywords, ∃ pre post, (pyLower sc).data = pre ++ (kw.data ++ post)) ∧
    (finalType none (some sc) = "secondary" ↔
      ((¬ ∃ kw ∈ primaryKeywords, ∃ pre post, (pyLower sc).data = pre ++ (kw.data ++ post)) ∧
        ∃ kw ∈ secondaryKeywords, ∃ pre post, (pyLower sc).data = pre ++ (kw.data ++ post))) ∧
    (finalType none (some sc) = "unknown" ↔
      ((¬ ∃ kw ∈ primaryKeywords, ∃ pre post, (pyLower sc).data = pre ++ (kw.data ++ post)) ∧
        ¬ ∃ kw ∈ secondaryKeywords, ∃ pre post, (pyLower sc).data = pre ++ (kw.data ++ post)))) ∧
    finalType none (some "Flavonoid glycoside") = "secondary" ∧
    finalType none (some "Unknown") = "unknown" := by
  have key : ∀ (kws : List String),
      (kws.any (fun x => substrOccurs x (pyLower sc)) = true) ↔
        ∃ kw ∈ kws, ∃ pre post, (pyLower sc).data = pre ++ (kw.data ++ post) := by
    intro kws
    rw [List.any_eq_true]
    constructor
    · rintro ⟨kw, hkw, hocc⟩
      exact ⟨kw, hkw, (substrOccurs_iff kw (pyLower sc)).mp hocc⟩
    · rintro ⟨kw, hkw, hdec⟩
      exact ⟨kw, hkw, (substrOccurs_iff kw (pyLower sc)).mpr hdec⟩
  refine ⟨⟨?_, ?_, ?_⟩, by decide, by decide⟩ <;>
    · rw [finalType]
      simp only [Option.getD_some, ← key]
      by_cases h1 : primaryKeywords.any (fun x => substrOccurs x (pyLower sc)) = true
      · by_cases h2 : secondaryKeywords.any (fun x => substrOccurs x (pyLower sc)) = true <;>
          simp [h1, h2]
      · by_cases h2 : secondaryKeywords.any (fun x => substrOccurs x (pyLower sc)) = true <;>
          simp [h1, h2]

/-- C9 counterexample: the claim promises the first match for every 2xx
status, but `search_hmdb_id` compares the status with 200 exactly, so a 201
response whose body holds a match still yields `none`. -/
theorem hmdb_search_non200_counterexample :
    search_hmdb_id (SearchNet.resp 201 (SearchBody.metabolites [some "HMDB0000122"])) = none ∧
      200 ≤ 201 ∧ 201 < 300 :=
  ⟨rfl, by decide, by decide⟩

/-- C9 amended: on HTTP status exactly 200 (not any 2xx) with a non-empty
`metabolites` list, `search_hmdb_id` returns the first match's id; any other
status, a transport exception, a parse failure or an empty list yields
`none` without propagating the failure. -/
theorem hmdb_search_contract (s : Nat) (body : SearchBody) (id : String)
    (rest : List (Option String)) :
    search_hmdb_id (SearchNet.resp 200 (SearchBody.metabolites (some id :: rest))) = some id ∧
    (s ≠ 200 → search_hmdb_id (SearchNet.resp s body) = none) ∧
    search_hmdb_id SearchNet.exn = none ∧
    search_hmdb_id (SearchNet.resp s SearchBody.badJson) = none ∧
    search_hmdb_id (SearchNet.resp s (SearchBody.metabolites [])) = none := by
  refine ⟨rfl, ?_, rfl, ?_, ?_⟩
  · intro h
    cases body <;> simp [search_hmdb_id, h]
  · by_cases h : s = 200 <;> simp [search_hmdb_id, h]
  · by_cases h : s = 200 <;> simp [search_hmdb_id, h]

theorem hmdb_search_contract_witness :
    search_hmdb_id (SearchNet.resp 404 SearchBody.badJson) = none :=
  (hmdb_search_contract 404 SearchBody.badJson "HMDB0000122" []).2.1 (by decide)

/-- C4 counterexample: the pathway codes are not collected into a set — a
payload repeating one pathway yields the code twice — and `"path:"` is not
merely a prefix strip: every occurrence inside the code is removed. -/
theorem kegg_pathways_not_set_counterexample :
    keggPathways "cpd:C00002\tpath:map00010\ncpd:C00002\tpath:map00010" =
        Except.ok ["map00010", "map00010"] ∧
      ¬ (["map00010", "map00010"] : List String).Nodup ∧
      keggPathways "cpd:C00002\tpath:map0path:map1" = Except.ok ["map0map1"] :=
  ⟨rfl, by decide, rfl⟩

/-- C4 amended: when every non-empty line of the payload has a tab, the
extraction returns one code per non-empty line, in line order with
duplicates preserved (a list, not a set); each code is the component after
the first tab with every `"path:"` occurrence removed. -/
theorem kegg_pathways_list_amended (pd : String)
    (h : ∀ l ∈ nonEmptyLines pd, (pathCodeOfLine l).isSome = true) :
    keggPathways pd = Except.ok ((nonEmptyLines pd).filterMap pathCodeOfLine) := by
  rw [keggPathways]
  exact extractPathCodes_all_some _ h

theorem kegg_pathways_list_amended_witness :
    (∀ l ∈ nonEmptyLines "cpd:C1\tpath:map1\ncpd:C1\tpath:map1",
      (pathCodeOfLine l).isSome = true) ∧
    keggPathways "cpd:C1\tpath:map1\ncpd:C1\tpath:map1" =
      Except.ok ((nonEmptyLines "cpd:C1\tpath:map1\ncpd:C1\tpath:map1").filterMap
        pathCodeOfLine) :=
  ⟨by decide, kegg_pathways_list_amended "cpd:C1\tpath:map1\ncpd:C1\tpath:map1" (by decide)⟩

/-- C5 counterexample: the KEGG detail and pathway-link fetches never check
the HTTP status, so a resolved metabolite whose detail fetch answers 404 is
not recorded as an error: its record says `Found` and carries data parsed
from the 404 body. -/
theorem kegg_non2xx_treated_as_found :
    c5net.info = FetchNet.resp 404 "404 Not Found" ∧
      (keggStep c5net).kegg_status = some "Found" ∧
      (keggStep c5net).type = some "primary" ∧
      (keggStep c5net).kegg_id = some "C00031" :=
  ⟨rfl, rfl, rfl, rfl⟩

/-- C5 amended: a transport exception during the KEGG detail or
pathway-link fetch of a resolved metabolite is caught at per-metabolite
granularity and recorded as `kegg_status = 'Error: …'` on that record (with
no `type` data), never raised; a non-2xx HTTP status, however, is not
detected on these fetches — the body is processed as ordinary data. -/
theorem kegg_fetch_exception_recorded (net : KeggNet) (kid : String)
    (hfind : get_kegg_id net.find = some kid) (hne : kid ≠ "") :
    (∀ msg, net.info = FetchNet.exn msg →
      (keggStep net).kegg_status = some ("Error: " ++ msg) ∧ (keggStep net).type = none) ∧
    (∀ msg s text, net.info = FetchNet.resp s text → net.link = FetchNet.exn msg →
      (keggStep net).kegg_status = some ("Error: " ++ msg) ∧ (keggStep net).type = none) := by
  constructor
  · intro msg hinfo
    rw [keggStep, hfind]
    dsimp only
    rw [if_neg hne, hinfo]
    exact ⟨rfl, rfl⟩
  · intro msg s text hinfo hlink
    rw [keggStep, hfind]
    dsimp only
    rw [if_neg hne, hinfo, hlink]
    exact ⟨rfl, rfl⟩

theorem kegg_fetch_exception_recorded_witness :
    get_kegg_id c5exnNet.find = some "C00031" ∧
      (keggStep c5exnNet).kegg_status = some ("Error: " ++ "timeout") ∧
      (keggStep c5exnNet).type = none :=
  ⟨rfl,
    ((kegg_fetch_exception_recorded c5exnNet "C00031" rfl (by decide)).1 "timeout" rfl).1,
    ((kegg_fetch_exception_recorded c5exnNet "C00031" rfl (by decide)).1 "timeout" rfl).2⟩

/-- C7: the HMDB pathway value is normalized before extraction — a single
object becomes a one-element list, so the resulting record carries a
one-element pathway list — and entries that are not dict objects are
silently dropped from the extracted name list. -/
theorem hmdb_pathway_normalization (sn : SearchNet) (hid : String)
    (cl : Option XClass) (n : Option String) (ps : List PathVal)
    (h1 : search_hmdb_id sn = some hid) (h2 : hid ≠ "") :
    (hmdbStep ⟨sn, DetailNet.resp 200
        (DetailBody.doc ⟨cl, some (PathwaysVal.single n)⟩)⟩).hmdb_pathways
      = some [n.getD ""] ∧
    extractNames ps = extractNames (ps.filter isObjB) := by
  constructor
  · rw [hmdbStep]
    dsimp only
    rw [h1]
    dsimp only
    rw [if_neg h2, if_neg (by omega)]
    rfl
  · induction ps with
    | nil => rfl
    | cons p t ih =>
      cases p with
      | obj nm => simpa [extractNames, isObjB, List.filter_cons, List.filterMap_cons] using ih
      | other => simpa [extractNames, isObjB, List.filter_cons, List.filterMap_cons] using ih

theorem hmdb_pathway_normalization_witness :
    (hmdbStep ⟨SearchNet.resp 200 (SearchBody.metabolites [some "HMDB0000122"]),
        DetailNet.resp 200 (DetailBody.doc
          ⟨none, some (PathwaysVal.single (some "Glycolysis"))⟩)⟩).hmdb_pathways
      = some ["Glycolysis"] :=
  (hmdb_pathway_normalization (SearchNet.resp 200 (SearchBody.metabolites [some "HMDB0000122"]))
    "HMDB0000122" none (some "Glycolysis") [] rfl (by decide)).1

/-- C8: any failure of the KEGG lookup (for example a raised timeout during
the KEGG search, which makes `get_kegg_id` return `none`) yields
`kegg_status = "ID not found"` for that metabolite and leaves every HMDB
field of the merged record untouched — the two sources fail independently. -/
theorem kegg_failure_independence (h : HRec) (net : KeggNet)
    (hfail : get_kegg_id net.find = none) :
    (keggStep net).kegg_status = some "ID not found" ∧
    (classifyRecord h (keggStep net)).hmdb_id = h.hmdb_id ∧
    (classifyRecord h (keggStep net)).super_class = h.super_class ∧
    (classifyRecord h (keggStep net)).cls = h.cls ∧
    (classifyRecord h (keggStep net)).sub_class = h.sub_class ∧
    (classifyRecord h (keggStep net)).hmdb_pathways = h.hmdb_pathways ∧
    (classifyRecord h (keggStep net)).hmdb_status = h.hmdb_status := by
  have hstep : keggStep net = keggIdNotFound := by rw [keggStep, hfail]
  rw [hstep]
  exact ⟨rfl, rfl, rfl, rfl, rfl, rfl, rfl⟩

theorem kegg_failure_independence_witness :
    (keggStep keggTimeoutNet).kegg_status = some "ID not found" ∧
      (classifyRecord hFoundRec (keggStep keggTimeoutNet)).super_class =
        some "Organic oxygen compounds" ∧
      (classifyRecord hFoundRec (keggStep keggTimeoutNet)).hmdb_id = some "HMDB0000122" :=
  ⟨(kegg_failure_independence hFoundRec keggTimeoutNet rfl).1,
    ((kegg_failure_independence hFoundRec keggTimeoutNet rfl).2.2.1).trans rfl,
    ((kegg_failure_independence hFoundRec keggTimeoutNet rfl).2.1).trans rfl⟩

/-- C3: the output table of `classify_metabolites` has exactly the unique
input names as row keys, in first-occurrence input order, and the row stored
under a duplicated name is the one computed from the queries of its last
occurrence (last-write-wins in the per-source dicts). -/
theorem classify_row_order_lastwrite (ms : List String)
    (hn : Nat → HmdbNet) (kn : Nat → KeggNet) :
    (classify_metabolites ms hn kn).map Prod.fst = firstOccs ms ∧
    ∀ m i, lastIdx ms m = some i →
      dictGet (classify_metabolites ms hn kn) m =
        some (classifyRecord (hmdbStep (hn i)) (keggStep (kn i))) := by
  refine ⟨classify_keys ms hn kn, ?_⟩
  intro m i h
  exact classify_get ms hn kn m i h

theorem classify_row_order_lastwrite_witness :
    lastIdx ["glucose", "quercetin", "glucose"] "glucose" = some 2 ∧
      dictGet (classify_metabolites ["glucose", "quercetin", "glucose"] cHN cKN) "glucose" =
        some (classifyRecord (hmdbStep (cHN 2)) (keggStep (cKN 2))) :=
  ⟨rfl,
    (classify_row_order_lastwrite ["glucose", "quercetin", "glucose"] cHN cKN).2
      "glucose" 2 rfl⟩

/-- C2: every input name owns exactly one row of the output table, even when
both sources fail; every row carries both status fields, and its
`final_type` is exactly one of `primary` / `secondary` / `unknown`. -/
theorem classify_row_invariants (ms : List String)
    (hn : Nat → HmdbNet) (kn : Nat → KeggNet) :
    (∀ m, m ∈ ms →
      ((classify_metabolites ms hn kn).filter (fun e => e.1 == m)).length = 1) ∧
    (∀ e, e ∈ classify_metabolites ms hn kn →
      (e.2.final_type = "primary" ∨ e.2.final_type = "secondary" ∨
          e.2.final_type = "unknown") ∧
        e.2.hmdb_status.isSome = true ∧ e.2.kegg_status.isSome = true) := by
  have hkeys := classify_keys ms hn kn
  have hnodup : ((classify_metabolites ms hn kn).map Prod.fst).Nodup := by
    rw [hkeys]; exact nodup_firstOccsAux ms []
  have hmemiff : ∀ m, m ∈ (classify_metabolites ms hn kn).map Prod.fst ↔ m ∈ ms := by
    intro m
    rw [hkeys, firstOccs, mem_firstOccsAux]
    simp
  constructor
  · intro m hm
    exact filter_key_length_one _ m hnodup ((hmemiff m).mpr hm)
  · intro e he
    have hkey : e.1 ∈ ms := (hmemiff e.1).mp (List.mem_map_of_mem Prod.fst he)
    rcases mem_of_lastIdxFrom_ne e.1 ms hkey with ⟨i, hi⟩
    have hget := classify_get ms hn kn e.1 i hi
    have hval : dictGet (classify_metabolites ms hn kn) e.1 = some e.2 :=
      dictGet_of_mem_nodup _ e hnodup he
    have he2 : e.2 = classifyRecord (hmdbStep (hn i)) (keggStep (kn i)) := by
      have := hval.symm.trans hget
      exact Option.some.inj this
    rw [he2]
    refine ⟨?_, ?_, ?_⟩
    · exact finalType_mem _ _ (keggStep_type (kn i))
    · exact hmdbStep_status (hn i)
    · exact keggStep_status (kn i)

theorem classify_row_invariants_witness :
    "glucose" ∈ ["glucose"] ∧
      ((classify_metabolites ["glucose"] cHN cKN).filter
        (fun e => e.1 == "glucose")).length = 1 :=
  ⟨List.mem_singleton.mpr rfl,
    (classify_row_invariants ["glucose"] cHN cKN).1 "glucose"
      (List.mem_singleton.mpr rfl)⟩
